import Mathlib

/-!
A shallow embedding in Lean 4 of the `lust` interpreter
(`src/lisp/expr.rs` and `src/lisp/read.rs`), together with theorems
checking the natural-language specification against it.

Modelling conventions:
* Rust `i64` values are Lean `Int`; the 64-bit width only matters for
  integer-literal parsing (`i64::from_str` overflow), which is modelled
  explicitly with bounds `-2^63 .. 2^63 - 1`.
* The mutable `Environment` (`&mut Environment` in Rust) becomes explicit
  state passing: evaluation returns a result together with the
  environment after the call.
* The trait objects `Box<Function>` / `Box<Expression>` form closed sets
  (`Add`/`If`/`Set` and `Literal`/`Reference`/`Call`), so they are
  modelled as inductive types.
* Rust's unchecked indexing `args[0]`, `args[1]`, `args[2]` in `If::call`
  and `Set::call` panics when the argument list is too short; that panic
  is modelled by the distinguished outcome `Outcome.oob`.
* The fallible character stream (`Iterator<Item = Result<char, io::Error>>`)
  becomes a `List (Except IoError Char)`; end of list is stream exhaustion.
-/

/-- `EvalError` from `expr.rs`: `UndefinedName(String)` is the only variant. -/
inductive EvalError where
  | UndefinedName (name : String)
deriving Repr, DecidableEq

/-- Result of one evaluation step: `Ok(i64)`, `Err(EvalError)`, or the
panic from an out-of-bounds `args[i]` access (`oob`). -/
inductive Outcome where
  | ok (val : Int)
  | error (e : EvalError)
  | oob
deriving Repr, DecidableEq

/-- The closed set of `Function` trait implementors in `expr.rs`. -/
inductive Func where
  | Add
  | If
  | Set
deriving Repr, DecidableEq

/-- The closed set of `Expression` trait implementors in `expr.rs`. -/
inductive Expression where
  | Literal (val : Int)
  | Reference (name : String)
  | Call (function : Func) (args : List Expression)
deriving Repr

/-- `Environment` from `expr.rs`: a `HashMap<String, i64>`, modelled as an
association list with unique keys (insertion overwrites in place). -/
structure Environment where
  vars : List (String × Int)
deriving Repr, DecidableEq

/-- `Environment::new()`. -/
def Environment.new : Environment := ⟨[]⟩

/-- First-match lookup in the association list, the model of
`HashMap::get`. -/
def lookupVar : List (String × Int) → String → Option Int
  | [], _ => none
  | (k, v) :: rest, name => if k = name then some v else lookupVar rest name

/-- `HashMap::insert`: overwrite the existing binding, or append a new one. -/
def insertVar : List (String × Int) → String → Int → List (String × Int)
  | [], name, val => [(name, val)]
  | (k, v) :: rest, name, val =>
    if k = name then (k, val) :: rest else (k, v) :: insertVar rest name val

/-- `Environment::get`: the stored value, or `UndefinedName(name)`.
It takes `&self` in Rust, so it never changes the environment. -/
def Environment.get (env : Environment) (name : String) : Except EvalError Int :=
  match lookupVar env.vars name with
  | some v => .ok v
  | none => .error (.UndefinedName name)

/-- `Environment::set`: insert/overwrite and return the assigned value.
The returned pair is (returned value, environment after the call). -/
def Environment.set (env : Environment) (name : String) (val : Int) :
    Int × Environment :=
  (val, ⟨insertVar env.vars name val⟩)

/-- Rust `derive(Debug)` output for the three unit-struct functions. -/
def debugFunc : Func → String
  | .Add => "Add"
  | .If => "If"
  | .Set => "Set"

mutual
/-- Rust `derive(Debug)` output for an expression tree (string escaping
inside `Reference` names is not modelled; reader-produced trees contain
no `Reference`). -/
def debugExpr : Expression → String
  | .Literal v => "Literal \x7b val: " ++ toString v ++ " \x7d"
  | .Reference n => "Reference \x7b name: \x22" ++ n ++ "\x22 \x7d"
  | .Call f args =>
      "Call \x7b function: " ++ debugFunc f ++ ", args: " ++ debugExprList args ++ " \x7d"

/-- Rust `derive(Debug)` output for a `Vec<Box<Expression>>`. -/
def debugExprList : List Expression → String
  | [] => "[]"
  | e :: rest => "[" ++ debugExpr e ++ debugExprTail rest ++ "]"

/-- Comma-separated tail of the `Vec` debug output. -/
def debugExprTail : List Expression → String
  | [] => ""
  | e :: rest => ", " ++ debugExpr e ++ debugExprTail rest
end

/-- `Expression::lvalue`. `Literal.lvalue` and `Call.lvalue` always fail
with `UndefinedName` carrying a debug rendering of the receiver
(`format!("\x7b:?\x7d", self.val)` resp. `format!("(\x7b:?\x7d \x7b:?\x7d)", function, args)`);
`Reference.lvalue` returns its own name. None of the three implementations
uses (or mutates) the environment. -/
def Expression.lvalue : Expression → Environment → Except EvalError String
  | .Literal v, _ => .error (.UndefinedName (toString v))
  | .Reference n, _ => .ok n
  | .Call f args, _ =>
      .error (.UndefinedName ("(" ++ debugFunc f ++ " " ++ debugExprList args ++ ")"))

mutual
/-- `Expression::eval`: `Literal` returns its value, `Reference` delegates
to `Environment::get`, `Call` delegates to `Function::call`. The pair is
(outcome, environment after evaluation). -/
def Expression.eval : Expression → Environment → Outcome × Environment
  | .Literal v, env => (.ok v, env)
  | .Reference n, env =>
    match env.get n with
    | .ok v => (.ok v, env)
    | .error e => (.error e, env)
  | .Call f args, env => Func.call f args env

/-- `Function::call` for the three functions, transcribed from `expr.rs`:
`Add` folds `Ok(try!(acc) + try!(expr.eval(env)))` over the arguments
seeded at `Ok(0)`; `If` evaluates `args[0]` and then exactly one branch;
`Set` takes `args[0].lvalue(env)`, then evaluates `args[1]`, then calls
`env.set`. Missing `args[i]` accesses produce `Outcome.oob`. -/
def Func.call : Func → List Expression → Environment → Outcome × Environment
  | .Add, args, env => addFold args (.ok 0) env
  | .If, [], env => (.oob, env)
  | .If, [a0], env =>
    match Expression.eval a0 env with
    | (.ok _, env1) => (.oob, env1)
    | (.error e, env1) => (.error e, env1)
    | (.oob, env1) => (.oob, env1)
  | .If, [a0, a1], env =>
    match Expression.eval a0 env with
    | (.ok r, env1) => if r ≠ 0 then Expression.eval a1 env1 else (.oob, env1)
    | (.error e, env1) => (.error e, env1)
    | (.oob, env1) => (.oob, env1)
  | .If, a0 :: a1 :: a2 :: _, env =>
    match Expression.eval a0 env with
    | (.ok r, env1) => if r ≠ 0 then Expression.eval a1 env1 else Expression.eval a2 env1
    | (.error e, env1) => (.error e, env1)
    | (.oob, env1) => (.oob, env1)
  | .Set, [], env => (.oob, env)
  | .Set, [a0], env =>
    match Expression.lvalue a0 env with
    | .error e => (.error e, env)
    | .ok _ => (.oob, env)
  | .Set, a0 :: a1 :: _, env =>
    match Expression.lvalue a0 env with
    | .error e => (.error e, env)
    | .ok name =>
      match Expression.eval a1 env with
      | (.ok v, env1) => (.ok (env1.set name v).1, (env1.set name v).2)
      | (.error e, env1) => (.error e, env1)
      | (.oob, env1) => (.oob, env1)

/-- The `args.iter().fold(Ok(0), |acc, expr| Ok(try!(acc) + try!(expr.eval(env))))`
from `Add::call`. The fold visits every element, but `try!(acc)` returns
from the closure before `expr.eval(env)` runs once the accumulator is an
error, so arguments after a failure are never evaluated. -/
def addFold : List Expression → Outcome → Environment → Outcome × Environment
  | [], acc, env => (acc, env)
  | e :: rest, acc, env =>
    match acc with
    | .ok a =>
      match Expression.eval e env with
      | (.ok v, env1) => addFold rest (.ok (a + v)) env1
      | (.error e0, env1) => addFold rest (.error e0) env1
      | (.oob, env1) => addFold rest .oob env1
    | .error e0 => addFold rest (.error e0) env
    | .oob => addFold rest .oob env
end

/-! ## The reader (`src/lisp/read.rs`) -/

/-- Placeholder for `std::io::Error`: only its identity flows through the
reader (wrapped into `ReadError::Io`), never its content. -/
structure IoError where
  code : Nat
deriving Repr, DecidableEq

/-- The error kinds of `std::num::ParseIntError` reachable from
`i64::from_str`. -/
inductive ParseIntError where
  | Empty
  | InvalidDigit
  | PosOverflow
  | NegOverflow
deriving Repr, DecidableEq

/-- `ReadError` from `read.rs`. -/
inductive ReadError where
  | Io (e : IoError)
  | Invalid (msg : String)
  | Parse (e : ParseIntError)
  | Eof
deriving Repr, DecidableEq

/-- The character stream `Peekable<&mut Iterator<Item = Result<char, io::Error>>>`:
a list of character-or-error items; the empty list is stream exhaustion.
Peek looks at the head without consuming; next consumes the head. -/
abbrev Input : Type := List (Except IoError Char)

/-- The pure-character stream the unit tests build from a string literal
(`s.chars().map(char_to_result)`). -/
def inputOf (s : String) : Input := s.toList.map .ok

/-- Digit accumulation of `i64::from_str` for a non-negative literal:
check each character is a digit, multiply-and-add, and fail with the
given overflow kind as soon as the accumulator leaves `0 .. bound`. -/
def parseDigits : List Char → Nat → Nat → ParseIntError → Except ParseIntError Nat
  | [], acc, _, _ => .ok acc
  | c :: rest, acc, bound, ovf =>
    if c.isDigit then
      let acc1 := acc * 10 + (c.toNat - 48)
      if acc1 > bound then .error ovf else parseDigits rest acc1 bound ovf
    else .error .InvalidDigit

/-- `i64::from_str` (`buf.parse::<i64>()`): optional sign, then one or
more digits, with incremental overflow checking against the `i64` range
`-2^63 .. 2^63 - 1`. -/
def parseI64 (s : String) : Except ParseIntError Int :=
  match s.toList with
  | [] => .error .Empty
  | '-' :: rest =>
    match rest with
    | [] => .error .InvalidDigit
    | _ =>
      match parseDigits rest 0 (2 ^ 63) .NegOverflow with
      | .ok m => .ok (-(m : Int))
      | .error e => .error e
  | '+' :: rest =>
    match rest with
    | [] => .error .InvalidDigit
    | _ =>
      match parseDigits rest 0 (2 ^ 63 - 1) .PosOverflow with
      | .ok m => .ok (m : Int)
      | .error e => .error e
  | cs =>
    match parseDigits cs 0 (2 ^ 63 - 1) .PosOverflow with
    | .ok m => .ok (m : Int)
    | .error e => .error e

/-- The `try!` macro (and the early `return Err(...)` of the name loop)
on a (result, stream-position) pair: propagate an error together with
the stream where it stopped, or continue with the value and the
advanced stream. -/
def bindRead {α β : Type} : Except ReadError α × Input →
    (α → Input → Except ReadError β × Input) → Except ReadError β × Input
  | (.error e, rest), _ => (.error e, rest)
  | (.ok a, rest), k => k a rest

/-- The loop of `read_number`, carrying the accumulated token `buf`.
A `-` is pushed and consumed, then rejected if it is not the first
character; a digit is pushed and consumed; a space or `)` terminates the
token WITHOUT being consumed; exhaustion mid-token is `Eof`; a stream
error is wrapped into `Io` (the erroneous item is consumed by
`try_peek!`); any other character is consumed and reported `Invalid`. -/
def readNumberLoop : Input → String → Except ReadError Int × Input
  | [], _ => (.error .Eof, [])
  | .error e :: rest, _ => (.error (.Io e), rest)
  | .ok c :: rest, buf =>
    if c = '-' then
      let buf1 := buf.push '-'
      if buf1.length > 1 then
        (.error (.Invalid ("invalid number " ++ buf1)), rest)
      else
        readNumberLoop rest buf1
    else if c.isDigit then
      readNumberLoop rest (buf.push c)
    else if c = ' ' ∨ c = ')' then
      (match parseI64 buf with
       | .ok n => .ok n
       | .error e => .error (.Parse e), .ok c :: rest)
    else
      (.error (.Invalid ("Invalid input \x27" ++ c.toString ++ "\x27")), rest)

/-- `read_number`: run the loop with an empty token buffer, then
`buf.parse()` on the terminator. -/
def read_number (input : Input) : Except ReadError Int × Input :=
  readNumberLoop input ""

/-- The `for c in input` loop of `read_function_name`: push characters
until the first space (which is consumed), exhaustion ends the loop with
the name so far, a stream error is wrapped into `Io`. -/
def readFunctionNameLoop : Input → String → Except ReadError String × Input
  | [], name => (.ok name, [])
  | .error e :: rest, _ => (.error (.Io e), rest)
  | .ok c :: rest, name =>
    if c = ' ' then (.ok name, rest)
    else readFunctionNameLoop rest (name.push c)

/-- `read_function_name`: read the name up to (and consuming) the first
space, then map `+` to `Add` and `if` to `If`; anything else is
`Invalid("Unknown function '…'")`. `Set` has no spelling here. -/
def read_function_name (input : Input) : Except ReadError Func × Input :=
  bindRead (readFunctionNameLoop input "") fun name rest =>
    if name = "+" then (.ok .Add, rest)
    else if name = "if" then (.ok .If, rest)
    else (.error (.Invalid ("Unknown function \x27" ++ name ++ "\x27")), rest)

mutual
/-- `read_expr`, with explicit fuel driving the mutual recursion with
`read_function_params` (the wrapper below supplies `input.length + 1`,
which the Rust recursion never exhausts since every recursive entry
consumes at least one character). Dispatch on the peeked character:
`(` starts a call (name, then params); a digit, `+` or `-` starts a
number literal (the character is NOT consumed before `read_number`);
space/newline/carriage-return is consumed and the reader re-enters;
exhaustion is `Eof`; a stream error at the head is consumed and wrapped
into `Io`; anything else is consumed and reported `Invalid`. -/
def readExprF : Nat → Input → Except ReadError Expression × Input
  | 0, input => (.error .Eof, input)
  | fuel + 1, input =>
    match input with
    | [] => (.error .Eof, [])
    | .error e :: rest => (.error (.Io e), rest)
    | .ok c :: rest =>
      if c = '(' then
        bindRead (read_function_name rest) fun f rest1 =>
          bindRead (readParamsF fuel rest1) fun ps rest2 =>
            (.ok (.Call f ps), rest2)
      else if c.isDigit ∨ c = '+' ∨ c = '-' then
        bindRead (read_number input) fun n rest1 => (.ok (.Literal n), rest1)
      else if c = ' ' ∨ c = '\n' ∨ c = '\r' then
        readExprF fuel rest
      else
        (.error (.Invalid ("Invalid input \x27" ++ c.toString ++ "\x27")), rest)

/-- The loop of `read_function_params`: peek a character; a digit or `-`
reads a number literal parameter (terminator left in place); `(` recurses
into `read_expr` (the `(` is consumed there); a space is skipped; `)` is
consumed and ends the parameter list; exhaustion mid-list is `Eof`; a
stream error is consumed and wrapped into `Io`; anything else is consumed
and reported `Invalid`. -/
def readParamsF : Nat → Input → Except ReadError (List Expression) × Input
  | 0, input => (.error .Eof, input)
  | fuel + 1, input =>
    match input with
    | [] => (.error .Eof, [])
    | .error e :: rest => (.error (.Io e), rest)
    | .ok c :: rest =>
      if c.isDigit ∨ c = '-' then
        bindRead (read_number input) fun n rest1 =>
          bindRead (readParamsF fuel rest1) fun ps rest2 =>
            (.ok (.Literal n :: ps), rest2)
      else if c = '(' then
        bindRead (readExprF fuel input) fun ex rest1 =>
          bindRead (readParamsF fuel rest1) fun ps rest2 =>
            (.ok (ex :: ps), rest2)
      else if c = ' ' then
        readParamsF fuel rest
      else if c = ')' then
        (.ok [], rest)
      else
        (.error (.Invalid ("Invalid input \x27" ++ c.toString ++ "\x27")), rest)
end

/-- `read_expr` as the tests call it: fuel `input.length + 1` never runs
out on the Rust recursion (each recursive entry consumes a character). -/
def read_expr (input : Input) : Except ReadError Expression × Input :=
  readExprF (List.length input + 1) input

/-- `read_function_params` as the tests call it. -/
def read_function_params (input : Input) : Except ReadError (List Expression) × Input :=
  readParamsF (List.length input + 1) input

/-! ## Spec-side definitions -/

/-- Reference definition following the spec's words for `Add.call`:
evaluate the arguments strictly left-to-right, accumulate with integer
`+` seeded at 0, and stop at the first failure, which becomes the result
(arguments after it are not evaluated, so the environment is exactly the
one the failing argument left behind). To be compared with the
source-transcribed `Func.call .Add`. -/
def addSpec : List Expression → Int → Environment → Outcome × Environment
  | [], acc, env => (.ok acc, env)
  | e :: rest, acc, env =>
    match Expression.eval e env with
    | (.ok v, env1) => addSpec rest (acc + v) env1
    | (.error e0, env1) => (.error e0, env1)
    | (.oob, env1) => (.oob, env1)

mutual
/-- The shape invariant of reader-produced trees: only `Literal` nodes
and `Call` nodes whose function is `Add` or `If`; never a `Reference`,
never the `Set` function. -/
def readerProducible : Expression → Bool
  | .Literal _ => true
  | .Reference _ => false
  | .Call .Set _ => false
  | .Call .Add args => readerProducibleList args
  | .Call .If args => readerProducibleList args

/-- `readerProducible` holding of every element of an argument list. -/
def readerProducibleList : List Expression → Bool
  | [] => true
  | e :: rest => readerProducible e && readerProducibleList rest
end

/-- A name is defined in the environment when lookup succeeds. -/
def defined (env : Environment) (name : String) : Bool :=
  (lookupVar env.vars name).isSome

/-- Non-assignable expressions: everything except `Reference`. -/
def isLiteralOrCall : Expression → Bool
  | .Literal _ => true
  | .Call _ _ => true
  | .Reference _ => false

/-- Run a list of `Environment.set` operations in order, starting from a
given environment. -/
def applySets : Environment → List (String × Int) → Environment
  | env, [] => env
  | env, (n, v) :: rest => applySets (env.set n v).2 rest

/-! ## Helper lemmas -/

theorem lookupVar_insertVar_self (vars : List (String × Int)) (name : String) (v : Int) :
    lookupVar (insertVar vars name v) name = some v := by
  induction vars with
  | nil => simp [insertVar, lookupVar]
  | cons kv rest ih =>
    obtain ⟨k, w⟩ := kv
    by_cases hk : k = name
    · simp [insertVar, lookupVar, hk]
    · simp [insertVar, lookupVar, hk, ih]

theorem lookupVar_insertVar_ne (vars : List (String × Int)) (name n : String) (v : Int)
    (h : name ≠ n) : lookupVar (insertVar vars name v) n = lookupVar vars n := by
  induction vars with
  | nil => simp [insertVar, lookupVar, h]
  | cons kv rest ih =>
    obtain ⟨k, w⟩ := kv
    by_cases hk : k = name
    · subst hk
      simp [insertVar, lookupVar, h]
    · simp [insertVar, lookupVar, hk, ih]

theorem addFold_error (args : List Expression) (e0 : EvalError) (env : Environment) :
    addFold args (.error e0) env = (.error e0, env) := by
  induction args with
  | nil => rw [addFold]
  | cons e rest ih => rw [addFold]; exact ih

theorem addFold_oob (args : List Expression) (env : Environment) :
    addFold args .oob env = (.oob, env) := by
  induction args with
  | nil => rw [addFold]
  | cons e rest ih => rw [addFold]; exact ih

theorem addFold_eq_addSpec (args : List Expression) (a : Int) (env : Environment) :
    addFold args (.ok a) env = addSpec args a env := by
  induction args generalizing a env with
  | nil => rw [addFold, addSpec]
  | cons e rest ih =>
    rw [addFold, addSpec]
    rcases he : Expression.eval e env with ⟨o, env1⟩
    cases o with
    | ok v => simp only [he]; exact ih (a + v) env1
    | error e0 => simp only [he]; exact addFold_error rest e0 env1
    | oob => simp only [he]; exact addFold_oob rest env1

/-! ## Claims -/

/-- C1: `Add.call` evaluates its arguments strictly left-to-right,
accumulating with integer `+` seeded at 0; the first evaluation failure
becomes the result of the whole call and no argument after it is
evaluated (the environment is exactly the one the failing argument left
behind). Stated as a refinement: the transcribed `Func.call .Add` agrees
with the spec-side `addSpec` on every argument list and environment. -/
theorem add_call_left_to_right (args : List Expression) (env : Environment) :
    Func.call .Add args env = addSpec args 0 env := by
  rw [Func.call]
  exact addFold_eq_addSpec args 0 env

/-- C2: with at least a condition and two branches, `If.call` evaluates
`args[0]`; on a nonzero result it evaluates and returns `args[1]`, on
zero it evaluates and returns `args[2]`; the non-taken branch is never
evaluated — replacing it by ANY other expression (one that would error
or assign, say) changes nothing about the result or the final
environment. -/
theorem if_call_branch_exclusive (a0 a1 a2 b : Expression) (rest : List Expression)
    (env env1 : Environment) (r : Int)
    (h : Expression.eval a0 env = (.ok r, env1)) :
    (r ≠ 0 →
      Func.call .If (a0 :: a1 :: a2 :: rest) env = Expression.eval a1 env1 ∧
      Func.call .If (a0 :: a1 :: a2 :: rest) env =
        Func.call .If (a0 :: a1 :: b :: rest) env) ∧
    (r = 0 →
      Func.call .If (a0 :: a1 :: a2 :: rest) env = Expression.eval a2 env1 ∧
      Func.call .If (a0 :: a1 :: a2 :: rest) env =
        Func.call .If (a0 :: b :: a2 :: rest) env) := by
  constructor
  · intro hr
    simp only [Func.call, h]
    simp [hr]
  · intro hr
    simp only [Func.call, h]
    simp [hr]

/-- Witness for C2 at `(if 1 7 boom)`: the `Reference "boom"` else-branch
(which would fail with `UndefinedName` if evaluated) is skipped, and
swapping it for a literal changes nothing. -/
theorem if_call_branch_exclusive_witness :
    Func.call .If [Expression.Literal 1, Expression.Literal 7, Expression.Reference "boom"]
        Environment.new
      = Expression.eval (Expression.Literal 7) Environment.new ∧
    Func.call .If [Expression.Literal 1, Expression.Literal 7, Expression.Reference "boom"]
        Environment.new
      = Func.call .If [Expression.Literal 1, Expression.Literal 7, Expression.Literal 0]
          Environment.new :=
  (if_call_branch_exclusive (Expression.Literal 1) (Expression.Literal 7)
      (Expression.Reference "boom") (Expression.Literal 0) [] Environment.new Environment.new 1
      (by simp [Expression.eval])).1 (by decide)

/-- C3: `Set.call` takes the lvalue of `args[0]` first, then evaluates
`args[1]`, then stores and returns the value. If the lvalue step fails
the whole call fails with that error, the environment is unchanged, and
`args[1]` is never evaluated (the result does not depend on it); if the
value step fails the call fails with that error; on success the value is
stored under the name and returned. -/
theorem set_call_spec (a0 a1 b : Expression) (rest : List Expression) (env : Environment) :
    (∀ e, Expression.lvalue a0 env = .error e →
      Func.call .Set (a0 :: a1 :: rest) env = (.error e, env) ∧
      Func.call .Set (a0 :: a1 :: rest) env = Func.call .Set (a0 :: b :: rest) env) ∧
    (∀ name v env1, Expression.lvalue a0 env = .ok name →
      Expression.eval a1 env = (.ok v, env1) →
      Func.call .Set (a0 :: a1 :: rest) env = (.ok v, (env1.set name v).2) ∧
      (env1.set name v).1 = v ∧
      ((env1.set name v).2).get name = .ok v) ∧
    (∀ name o env1, Expression.lvalue a0 env = .ok name →
      Expression.eval a1 env = (o, env1) → (∀ v, o ≠ .ok v) →
      Func.call .Set (a0 :: a1 :: rest) env = (o, env1)) := by
  refine ⟨?_, ?_, ?_⟩
  · intro e he
    simp [Func.call, he]
  · intro name v env1 hl he
    refine ⟨?_, rfl, ?_⟩
    · simp [Func.call, hl, he, Environment.set]
    · simp [Environment.set, Environment.get, lookupVar_insertVar_self]
  · intro name o env1 hl he ho
    cases o with
    | ok v => exact absurd rfl (ho v)
    | error e0 => simp [Func.call, hl, he]
    | oob => simp [Func.call, hl, he]

/-- Witness for C3 at `(set! bar 3)` (built programmatically): the call
returns 3 and a subsequent `get "bar"` reads back 3; and with a
non-assignable target `Literal 5`, the call fails without evaluating the
value expression. -/
theorem set_call_spec_witness :
    (Func.call .Set [Expression.Reference "bar", Expression.Literal 3] Environment.new
        = (.ok 3, (Environment.new.set "bar" 3).2) ∧
      (Environment.new.set "bar" 3).1 = 3 ∧
      ((Environment.new.set "bar" 3).2).get "bar" = .ok 3) ∧
    (Func.call .Set [Expression.Literal 5, Expression.Reference "boom"] Environment.new
        = (.error (.UndefinedName "5"), Environment.new) ∧
      Func.call .Set [Expression.Literal 5, Expression.Reference "boom"] Environment.new
        = Func.call .Set [Expression.Literal 5, Expression.Literal 0] Environment.new) :=
  ⟨(set_call_spec (Expression.Reference "bar") (Expression.Literal 3) (Expression.Literal 0)
        [] Environment.new).2.1 "bar" 3 Environment.new (by simp [Expression.lvalue])
        (by simp [Expression.eval]),
    (set_call_spec (Expression.Literal 5) (Expression.Reference "boom") (Expression.Literal 0)
        [] Environment.new).1 (.UndefinedName "5") rfl⟩

theorem applySets_lookup (sets : List (String × Int)) (env : Environment) (name : String)
    (h : name ∉ sets.map Prod.fst) :
    lookupVar (applySets env sets).vars name = lookupVar env.vars name := by
  induction sets generalizing env with
  | nil => rw [applySets]
  | cons kv rest ih =>
    obtain ⟨k, v⟩ := kv
    simp only [List.map_cons, List.mem_cons] at h
    push_neg at h
    rw [applySets]
    rw [ih ((env.set k v).2) h.2]
    exact lookupVar_insertVar_ne env.vars k name v (fun hk => h.1 hk.symm)

/-- C4: `Environment.set(name, v)` returns `v` and never fails, and a
subsequent `get(name)` returns `v`; `get` on a name on which no `set`
was ever performed (any sequence of sets of other names applied to a
fresh environment) fails with `UndefinedName` carrying that name, never
a default value. -/
theorem environment_get_set (env : Environment) (name : String) (v : Int)
    (sets : List (String × Int)) (h : name ∉ sets.map Prod.fst) :
    (env.set name v).1 = v ∧
    ((env.set name v).2).get name = .ok v ∧
    (applySets Environment.new sets).get name = .error (.UndefinedName name) := by
  refine ⟨rfl, ?_, ?_⟩
  · simp [Environment.set, Environment.get, lookupVar_insertVar_self]
  · rw [Environment.get, applySets_lookup sets Environment.new name h]
    simp [Environment.new, lookupVar]

/-- Witness for C4: set `"x" := 3` on a fresh environment (returns 3,
reads back 3), and `get "x"` after setting only `"y"` and `"z"` fails
with `UndefinedName "x"`. -/
theorem environment_get_set_witness :
    (Environment.new.set "x" 3).1 = 3 ∧
    ((Environment.new.set "x" 3).2).get "x" = .ok 3 ∧
    (applySets Environment.new [("y", 1), ("z", 2)]).get "x"
      = .error (.UndefinedName "x") :=
  environment_get_set Environment.new "x" 3 [("y", 1), ("z", 2)] (by decide)

/-- C5 counterexample: the source text `(+)` is NOT readable. The
function-name loop consumes characters up to a space, so on `"(+)"` it
reads the name `+)` and the reader fails with
`Invalid("Unknown function '+)'")` instead of producing an expression
that evaluates to 0. -/
theorem read_add_empty_cex :
    read_expr (inputOf "(+)")
      = (.error (.Invalid ("Unknown function \x27+)\x27")), []) := rfl

/-- C5 amended: the Add function applied to an empty argument list
evaluates to 0, and reading `"(+ 1 2 3)"` and evaluating yields 6; but
the text `"(+)"` has no reader spelling — the function name must be
terminated by a space, so the space-separated `"(+ )"` is the spelling
that reads and evaluates to 0. -/
theorem add_empty_yields_zero_amended (env : Environment) :
    Func.call .Add [] env = (.ok 0, env) ∧
    read_expr (inputOf "(+ )") = (.ok (.Call .Add []), []) ∧
    Expression.eval (.Call .Add []) Environment.new = (.ok 0, Environment.new) ∧
    read_expr (inputOf "(+ 1 2 3)")
      = (.ok (.Call .Add [.Literal 1, .Literal 2, .Literal 3]), []) ∧
    Expression.eval (.Call .Add [.Literal 1, .Literal 2, .Literal 3]) Environment.new
      = (.ok 6, Environment.new) := by
  refine ⟨?_, rfl, ?_, rfl, ?_⟩
  · rw [Func.call, addFold]
  · simp [Expression.eval, Func.call, addFold]
  · simp [Expression.eval, Func.call, addFold]

/-- C6: `read_number` terminates a number on space or `)` and leaves the
terminator unconsumed: `"-14 "` reads as the literal `-14` (also via
`read_expr`), `"2701)"` reads as `2701` with the `)` still at the head
of the stream, and `read_function_params` on `"2701)"` consumes that `)`
after the last parameter. -/
theorem read_number_terminators :
    read_number (inputOf "-14 ") = (.ok (-14), [.ok ' ']) ∧
    read_expr (inputOf "-14 ") = (.ok (.Literal (-14)), [.ok ' ']) ∧
    read_number (inputOf "2701)") = (.ok 2701, [.ok ')']) ∧
    read_function_params (inputOf "2701)") = (.ok [.Literal 2701], []) := by
  exact ⟨rfl, rfl, rfl, rfl⟩

/-- C7: the reader classifies failures as specified: `"(apa 1)"` is an
`Invalid` error naming `apa`; truncated `"(+ 1"` is `Eof`; doubled sign
`"--1 "` is `Invalid`; a number-shaped digit sequence overflowing `i64`
(here `2^63` itself) is a `Parse` error. -/
theorem read_error_classification :
    (read_expr (inputOf "(apa 1)")).1 = .error (.Invalid ("Unknown function \x27apa\x27")) ∧
    (read_expr (inputOf "(+ 1")).1 = .error .Eof ∧
    (read_expr (inputOf "--1 ")).1 = .error (.Invalid "invalid number --") ∧
    (read_number (inputOf "9223372036854775808 ")).1 = .error (.Parse .PosOverflow) := by
  exact ⟨rfl, rfl, rfl, rfl⟩

theorem read_function_name_add_or_if (input : Input) (f : Func) (rest : Input)
    (h : read_function_name input = (.ok f, rest)) : f = .Add ∨ f = .If := by
  rw [read_function_name] at h
  rcases hl : readFunctionNameLoop input "" with ⟨res, rest0⟩
  rw [hl] at h
  cases res with
  | error e => simp only [bindRead] at h; simp at h
  | ok name =>
    simp only [bindRead] at h
    by_cases h1 : name = "+"
    · rw [if_pos h1] at h
      injection h with h2 h3
      injection h2 with h4
      exact Or.inl h4.symm
    · rw [if_neg h1] at h
      by_cases h2 : name = "if"
      · rw [if_pos h2] at h
        injection h with h3 h4
        injection h3 with h5
        exact Or.inr h5.symm
      · rw [if_neg h2] at h
        simp at h

theorem readExprF_producible (fuel : Nat) :
    (∀ input e rest, readExprF fuel input = (.ok e, rest) → readerProducible e = true) ∧
    (∀ input ps rest, readParamsF fuel input = (.ok ps, rest) →
      readerProducibleList ps = true) := by
  induction fuel with
  | zero =>
    constructor
    · intro input e rest h
      rw [readExprF] at h
      simp at h
    · intro input ps rest h
      rw [readParamsF] at h
      simp at h
  | succ n ih =>
    obtain ⟨ihE, ihP⟩ := ih
    constructor
    · intro input e rest h
      match input with
      | [] => rw [readExprF] at h; simp at h
      | .error e0 :: rest0 => rw [readExprF] at h; simp at h
      | .ok c :: rest0 =>
        rw [readExprF] at h
        by_cases hc : c = '('
        · rw [if_pos hc] at h
          rcases hn : read_function_name rest0 with ⟨rn, rest1⟩
          rw [hn] at h
          cases rn with
          | error e1 => simp only [bindRead] at h; simp at h
          | ok f =>
            simp only [bindRead] at h
            rcases hp : readParamsF n rest1 with ⟨rp, rest2⟩
            rw [hp] at h
            cases rp with
            | error e1 => simp only [bindRead] at h; simp at h
            | ok ps =>
              simp only [bindRead] at h
              injection h with h1 h2
              injection h1 with h3
              subst h3
              have hps := ihP rest1 ps rest2 hp
              rcases read_function_name_add_or_if rest0 f rest1 hn with hf | hf
              · rw [hf]
                simp only [readerProducible]
                exact hps
              · rw [hf]
                simp only [readerProducible]
                exact hps
        · rw [if_neg hc] at h
          by_cases hd : c.isDigit ∨ c = '+' ∨ c = '-'
          · rw [if_pos hd] at h
            rcases hm : read_number (Except.ok c :: rest0) with ⟨rm, rest1⟩
            rw [hm] at h
            cases rm with
            | error e1 => simp only [bindRead] at h; simp at h
            | ok m =>
              simp only [bindRead] at h
              injection h with h1 h2
              injection h1 with h3
              subst h3
              simp only [readerProducible]
          · rw [if_neg hd] at h
            by_cases hw : c = ' ' ∨ c = '\n' ∨ c = '\r'
            · rw [if_pos hw] at h
              exact ihE rest0 e rest h
            · rw [if_neg hw] at h
              simp at h
    · intro input ps rest h
      match input with
      | [] => rw [readParamsF] at h; simp at h
      | .error e0 :: rest0 => rw [readParamsF] at h; simp at h
      | .ok c :: rest0 =>
        rw [readParamsF] at h
        by_cases hd : c.isDigit ∨ c = '-'
        · rw [if_pos hd] at h
          rcases hm : read_number (Except.ok c :: rest0) with ⟨rm, rest1⟩
          rw [hm] at h
          cases rm with
          | error e1 => simp only [bindRead] at h; simp at h
          | ok m =>
            simp only [bindRead] at h
            rcases hq : readParamsF n rest1 with ⟨rq, rest2⟩
            rw [hq] at h
            cases rq with
            | error e1 => simp only [bindRead] at h; simp at h
            | ok ps1 =>
              simp only [bindRead] at h
              injection h with h1 h2
              injection h1 with h3
              subst h3
              simp only [readerProducibleList, readerProducible, Bool.true_and]
              exact ihP rest1 ps1 rest2 hq
        · rw [if_neg hd] at h
          by_cases hp : c = '('
          · rw [if_pos hp] at h
            rcases he : readExprF n (Except.ok c :: rest0) with ⟨re, rest1⟩
            rw [he] at h
            cases re with
            | error e1 => simp only [bindRead] at h; simp at h
            | ok ex =>
              simp only [bindRead] at h
              rcases hq : readParamsF n rest1 with ⟨rq, rest2⟩
              rw [hq] at h
              cases rq with
              | error e1 => simp only [bindRead] at h; simp at h
              | ok ps1 =>
                simp only [bindRead] at h
                injection h with h1 h2
                injection h1 with h3
                subst h3
                simp only [readerProducibleList]
                rw [ihE (Except.ok c :: rest0) ex rest1 he, ihP rest1 ps1 rest2 hq]
                rfl
          · rw [if_neg hp] at h
            by_cases hw : c = ' '
            · rw [if_pos hw] at h
              exact ihP rest0 ps rest h
            · rw [if_neg hw] at h
              by_cases hr : c = ')'
              · rw [if_pos hr] at h
                injection h with h1 h2
                injection h1 with h3
                subst h3
                simp only [readerProducibleList]
              · rw [if_neg hr] at h
                simp at h


/-- C8: any expression tree successfully produced by `read_expr`
contains only `Literal` nodes and `Call` nodes whose function is `Add`
or `If`: the reader never produces a `Reference` node and never the
`Set` function. -/
theorem read_expr_producible (input : Input) (e : Expression) (rest : Input)
    (h : read_expr input = (.ok e, rest)) : readerProducible e = true :=
  (readExprF_producible (List.length input + 1)).1 input e rest h

/-- Witness for C8 on the concrete input `"(if 1 2 3)"`. -/
theorem read_expr_producible_witness :
    readerProducible
      (.Call .If [.Literal 1, .Literal 2, .Literal 3]) = true :=
  read_expr_producible (inputOf "(if 1 2 3)")
    (.Call .If [.Literal 1, .Literal 2, .Literal 3]) [] rfl

theorem set_preserves_defined (env : Environment) (name n : String) (v : Int)
    (h : defined env n = true) : defined ((env.set name v).2) n = true := by
  by_cases hn : name = n
  · subst hn
    simp [defined, Environment.set, lookupVar_insertVar_self]
  · simp only [defined, Environment.set]
    rw [lookupVar_insertVar_ne env.vars name n v hn]
    exact h

theorem set_defines (env : Environment) (name : String) (v : Int) :
    defined ((env.set name v).2) name = true := by
  simp [defined, Environment.set, lookupVar_insertVar_self]

mutual
theorem eval_preserves_defined (e : Expression) (env : Environment) (n : String)
    (h : defined env n = true) : defined (Expression.eval e env).2 n = true := by
  cases e with
  | Literal v =>
    simp only [Expression.eval]
    exact h
  | Reference m =>
    simp only [Expression.eval]
    rcases hg : env.get m with e1 | v
    · exact h
    · exact h
  | Call f args =>
    simp only [Expression.eval]
    exact call_preserves_defined f args env n h
termination_by (sizeOf e, 0)

theorem call_preserves_defined (f : Func) (args : List Expression) (env : Environment)
    (n : String) (h : defined env n = true) :
    defined (Func.call f args env).2 n = true := by
  cases f with
  | Add =>
    simp only [Func.call]
    exact addFold_preserves_defined args (.ok 0) env n h
  | If =>
    match args with
    | [] =>
      simp only [Func.call]
      exact h
    | [a0] =>
      simp only [Func.call]
      have h0 := eval_preserves_defined a0 env n h
      rcases he : Expression.eval a0 env with ⟨o, env1⟩
      rw [he] at h0
      cases o with
      | ok r => exact h0
      | error e2 => exact h0
      | oob => exact h0
    | [a0, a1] =>
      simp only [Func.call]
      have h0 := eval_preserves_defined a0 env n h
      rcases he : Expression.eval a0 env with ⟨o, env1⟩
      rw [he] at h0
      cases o with
      | ok r =>
        show defined (if r ≠ 0 then Expression.eval a1 env1 else (.oob, env1)).2 n = true
        by_cases hr : r = 0
        · rw [if_neg (show ¬(r ≠ 0) from fun hh => hh hr)]
          exact h0
        · rw [if_pos hr]
          exact eval_preserves_defined a1 env1 n h0
      | error e2 => exact h0
      | oob => exact h0
    | a0 :: a1 :: a2 :: rest =>
      simp only [Func.call]
      have h0 := eval_preserves_defined a0 env n h
      rcases he : Expression.eval a0 env with ⟨o, env1⟩
      rw [he] at h0
      cases o with
      | ok r =>
        show defined (if r ≠ 0 then Expression.eval a1 env1 else Expression.eval a2 env1).2 n
          = true
        by_cases hr : r = 0
        · rw [if_neg (show ¬(r ≠ 0) from fun hh => hh hr)]
          exact eval_preserves_defined a2 env1 n h0
        · rw [if_pos hr]
          exact eval_preserves_defined a1 env1 n h0
      | error e2 => exact h0
      | oob => exact h0
  | Set =>
    match args with
    | [] =>
      simp only [Func.call]
      exact h
    | [a0] =>
      simp only [Func.call]
      rcases hl : Expression.lvalue a0 env with e1 | s
      · exact h
      · exact h
    | a0 :: a1 :: rest =>
      simp only [Func.call]
      rcases hl : Expression.lvalue a0 env with e1 | s
      · exact h
      · have h1 := eval_preserves_defined a1 env n h
        rcases he : Expression.eval a1 env with ⟨o, env1⟩
        rw [he] at h1
        cases o with
        | ok v => exact set_preserves_defined env1 s n v h1
        | error e2 => exact h1
        | oob => exact h1
termination_by (sizeOf args, 1)

theorem addFold_preserves_defined (args : List Expression) (acc : Outcome)
    (env : Environment) (n : String) (h : defined env n = true) :
    defined (addFold args acc env).2 n = true := by
  match args with
  | [] =>
    simp only [addFold]
    exact h
  | e :: rest =>
    cases acc with
    | ok a =>
      simp only [addFold]
      have h0 := eval_preserves_defined e env n h
      rcases he : Expression.eval e env with ⟨o, env1⟩
      rw [he] at h0
      cases o with
      | ok v => exact addFold_preserves_defined rest (.ok (a + v)) env1 n h0
      | error e0 => exact addFold_preserves_defined rest (.error e0) env1 n h0
      | oob => exact addFold_preserves_defined rest .oob env1 n h0
    | error e0 =>
      simp only [addFold]
      exact addFold_preserves_defined rest (.error e0) env n h
    | oob =>
      simp only [addFold]
      exact addFold_preserves_defined rest .oob env n h
termination_by (sizeOf args, 0)
end

/-- C9: the environment grows monotonically. `set` preserves every
previously defined name and defines its own name (inserting it when
absent, overwriting in place otherwise); evaluating any expression
preserves every previously defined name — no operation removes or
shadows a binding (`get` takes the environment immutably and cannot
change it at all). -/
theorem environment_monotone (e : Expression) (env : Environment)
    (name nPrev : String) (v : Int) (h : defined env nPrev = true) :
    defined ((env.set name v).2) nPrev = true ∧
    defined ((env.set name v).2) name = true ∧
    defined (Expression.eval e env).2 nPrev = true :=
  ⟨set_preserves_defined env name nPrev v h, set_defines env name v,
    eval_preserves_defined e env nPrev h⟩

/-- Witness for C9: starting from an environment defining `"x"`, a `set`
of `"z"` keeps `"x"` and adds `"z"`, and evaluating `(set! y 2)` keeps
`"x"`. -/
theorem environment_monotone_witness :
    defined ((((Environment.new.set "x" 1).2).set "z" 5).2) "x" = true ∧
    defined ((((Environment.new.set "x" 1).2).set "z" 5).2) "z" = true ∧
    defined (Expression.eval (.Call .Set [.Reference "y", .Literal 2])
        (Environment.new.set "x" 1).2).2 "x" = true :=
  environment_monotone (.Call .Set [.Reference "y", .Literal 2])
    ((Environment.new.set "x" 1).2) "z" "x" 5 (by decide)

/-- C10: `Set.call` on a non-assignable first argument (a `Literal` or a
`Call`) fails with an `EvalError` of kind `UndefinedName` — the only
evaluation error kind, even though no name lookup failed — the
environment is returned completely unchanged, and `args[1]` is never
evaluated: the result is identical for any second argument. -/
theorem set_call_not_assignable (a0 a1 b : Expression) (rest : List Expression)
    (env : Environment) (h : isLiteralOrCall a0 = true) :
    ∃ msg, Expression.lvalue a0 env = .error (.UndefinedName msg) ∧
      Func.call .Set (a0 :: a1 :: rest) env = (.error (.UndefinedName msg), env) ∧
      Func.call .Set (a0 :: b :: rest) env = (.error (.UndefinedName msg), env) := by
  cases a0 with
  | Literal v =>
    refine ⟨toString v, rfl, ?_, ?_⟩
    · simp [Func.call, Expression.lvalue]
    · simp [Func.call, Expression.lvalue]
  | Reference m => simp [isLiteralOrCall] at h
  | Call f cargs =>
    refine ⟨"(" ++ debugFunc f ++ " " ++ debugExprList cargs ++ ")", rfl, ?_, ?_⟩
    · simp [Func.call, Expression.lvalue]
    · simp [Func.call, Expression.lvalue]

/-- Witness for C10 with first argument `Literal 3`: the call fails with
`UndefinedName "3"`, the environment comes back unchanged, and the
result is the same whether the second argument is the (would-error)
`Reference "x"` or the harmless `Literal 9`. -/
theorem set_call_not_assignable_witness :
    Func.call .Set [Expression.Literal 3, Expression.Reference "x"] Environment.new
      = (.error (.UndefinedName "3"), Environment.new) ∧
    Func.call .Set [Expression.Literal 3, Expression.Literal 9] Environment.new
      = (.error (.UndefinedName "3"), Environment.new) := by
  obtain ⟨msg, h1, h2, h3⟩ :=
    set_call_not_assignable (Expression.Literal 3) (Expression.Reference "x")
      (Expression.Literal 9) [] Environment.new rfl
  have h0 : Expression.lvalue (Expression.Literal 3) Environment.new
      = Except.error (EvalError.UndefinedName "3") := rfl
  have h4 := h0.symm.trans h1
  injection h4 with h5
  injection h5 with h6
  subst h6
  exact ⟨h2, h3⟩
